import Mathlib

/-!
# Aggregation scheduler of wakapi (`services/aggregation.go`)

A shallow embedding of `generateUserJobs`, `getStartOfToday` and `trigger`, together with the
part of Go's `time` package these functions call (`time.Date`, `Time.Year`, `Time.Month`,
`Time.Day`, `Time.Hour`, `Time.Location`, `Time.Add`, `Time.Before`).

Modelling conventions.

* A `Time` is an instant (nanoseconds since the Unix epoch, an unbounded `Int`) together with
  a `Location`.  A `Location` is a zone with one fixed offset from UTC, so every calendar day
  has 24 hours; zones with daylight-saving transitions are outside the model.
* The calendar is the proleptic Gregorian calendar, computed with the 400/100/4/1-year cycle
  arithmetic of Go's `time` package, counted in days since 0001-01-01.
* `time.Now()` is the parameter `now`.
* Sending on the channel `jobs` appends to the list of pushed jobs: the result of
  `generateUserJobs` is the sequence of jobs it sends, in order.
-/

namespace Wakapi

/-! ## Go's `time` package -/

/-- A time zone with one fixed offset, in seconds east of UTC.  Go's `*Location` also holds the
transitions of a zone whose offset changes; such zones are not modelled. -/
structure Location where
  offset : Int
deriving DecidableEq, Repr

/-- The zone `time.UTC`. -/
def UTC : Location := ⟨0⟩

/-- An instant with the zone it is displayed in (`time.Time`). -/
structure Time where
  unixNano : Int
  loc : Location
deriving DecidableEq, Repr

/-- Go's `time.Duration`: a number of nanoseconds. -/
abbrev Duration := Int

def Nanosecond : Duration := 1
def Second : Duration := 1000000000 * Nanosecond
def Minute : Duration := 60 * Second
def Hour : Duration := 60 * Minute

def secondsPerDay : Int := 86400
def secondsPerHour : Int := 3600
def daysPer400Years : Int := 365 * 400 + 97
def daysPer100Years : Int := 365 * 100 + 24
def daysPer4Years : Int := 365 * 4 + 1

/-- Seconds from 0001-01-01T00:00:00Z to the Unix epoch (`unixToInternal` in Go). -/
def unixToInternal : Int := 62135596800

/-- Leap years of the Gregorian calendar (`isLeap`). -/
def isLeap (year : Int) : Bool :=
  year % 4 = 0 && (year % 100 ≠ 0 || year % 400 = 0)

/-- Table `daysBefore`: the number of days of a non-leap year before month `m + 1` starts. -/
def daysBefore (m : Int) : Int :=
  [0, 31, 59, 90, 120, 151, 181, 212, 243, 273, 304, 334, 365].getD m.toNat 0

/-- Days from 0001-01-01 to January 1 of `year` (`daysSinceEpoch`). -/
def daysSinceEpoch (year : Int) : Int :=
  let y := year - 1
  -- 400-year cycles
  let n400 := y / 400
  let y1 := y - 400 * n400
  -- 100-year cycles
  let n100 := y1 / 100
  let y2 := y1 - 100 * n100
  -- 4-year cycles
  let n4 := y2 / 4
  let y3 := y2 - 4 * n4
  daysPer400Years * n400 + daysPer100Years * n100 + daysPer4Years * n4 + 365 * y3

/-- A calendar date: year, month (1 to 12), day of the month, and day of the year from 0. -/
structure CivilDate where
  year : Int
  month : Int
  day : Int
  yday : Int
deriving DecidableEq, Repr

/-- The calendar date of day number `d`, counted from 0001-01-01 (`absDate`). -/
def absDate (d : Int) : CivilDate :=
  -- 400-year cycles
  let n400 := d / daysPer400Years
  let d1 := d - daysPer400Years * n400
  -- 100-year cycles; the last one is a day longer, so cut 4 back to 3
  let n100 := d1 / daysPer100Years
  let n100 := n100 - n100 / 4
  let d2 := d1 - daysPer100Years * n100
  -- 4-year cycles
  let n4 := d2 / daysPer4Years
  let d3 := d2 - daysPer4Years * n4
  -- years of a 4-year cycle; the last one is a day longer, so cut 4 back to 3
  let n1 := d3 / 365
  let n1 := n1 - n1 / 4
  let yday := d3 - 365 * n1
  let year := 1 + 400 * n400 + 100 * n100 + 4 * n4 + n1
  if isLeap year && yday = 31 + 29 - 1 then
    -- leap day
    ⟨year, 2, 29, yday⟩
  else
    -- after the leap day: pretend it was not there
    let day := if isLeap year && yday > 31 + 29 - 1 then yday - 1 else yday
    -- estimate the month as if every month had 31 days, then adjust
    let month := day / 31
    let stop := daysBefore (month + 1)
    if day ≥ stop then
      ⟨year, month + 1 + 1, day - stop + 1, yday⟩
    else
      ⟨year, month + 1, day - daysBefore month + 1, yday⟩

/-- Seconds since 0001-01-01T00:00:00 on the wall clock of the zone of `t` (`Time.abs`). -/
def Time.abs (t : Time) : Int :=
  t.unixNano / 1000000000 + t.loc.offset + unixToInternal

/-- The calendar date of `t` in its zone. -/
def Time.date (t : Time) : CivilDate :=
  absDate (t.abs / secondsPerDay)

def Time.Year (t : Time) : Int := t.date.year
def Time.Month (t : Time) : Int := t.date.month
def Time.Day (t : Time) : Int := t.date.day

/-- The hour of the day of `t` in its zone, 0 to 23. -/
def Time.Hour (t : Time) : Int :=
  (t.abs % secondsPerDay) / secondsPerHour

/-- The minute of the hour of `t`, 0 to 59. -/
def Time.Minute (t : Time) : Int :=
  (t.abs % secondsPerHour) / 60

/-- The second of the minute of `t`, 0 to 59. -/
def Time.Second (t : Time) : Int :=
  t.abs % 60

/-- The nanosecond of the second of `t`. -/
def Time.Nanosecond (t : Time) : Int :=
  t.unixNano % 1000000000

def Time.Location (t : Time) : Location := t.loc

/-- The time `t + d`. -/
def Time.Add (t : Time) (d : Duration) : Time :=
  ⟨t.unixNano + d, t.loc⟩

/-- Whether the instant `t` is before the instant `u`. -/
def Time.Before (t u : Time) : Bool :=
  decide (t.unixNano < u.unixNano)

/-- Go's `time.Date`: the instant of the given wall-clock reading in `loc`.  A month, day,
hour, minute, second or nanosecond outside its usual range is normalised by carrying over.
The zone lookup of `time.Date` is the one offset of `loc`. -/
def Date (year month day hour min sec nsec : Int) (loc : Location) : Time :=
  -- normalise the month, overflowing into the year
  let m := month - 1
  let year := year + m / 12
  let month := m % 12 + 1
  -- days since 0001-01-01
  let d := daysSinceEpoch year + daysBefore (month - 1)
    + (if isLeap year && month ≥ 3 then 1 else 0) + (day - 1)
  -- seconds since 0001-01-01T00:00:00 on the wall clock of `loc`
  let abs := d * secondsPerDay + hour * secondsPerHour + min * 60 + sec
  let unix := abs - unixToInternal - loc.offset
  ⟨unix * 1000000000 + nsec, loc⟩

/-- The zero value of `time.Time`: 0001-01-01T00:00:00Z. -/
def zeroTime : Time := ⟨-unixToInternal * 1000000000, UTC⟩


/-! ## The calendar: a date and its day number

`time.Date` gives back the day number of the date that `absDate` computes for it, so the
midnight after a time is later than that time.  The loop of `generateUserJobs` terminates by
this fact. -/

/-- The year and the day of the year that the cycle arithmetic of `absDate` gives for day
number `d` lead `daysSinceEpoch` back to `d`; the day of the year is below 365, or is 365 in a
leap year. -/
theorem cycles_roundtrip (d q a c n4 e n1 : Int)
    (hq : q = d / 146097)
    (ha : a = (d - 146097 * q) / 36524)
    (hc : c = a - a / 4)
    (hn4 : n4 = (d - 146097 * q - 36524 * c) / 1461)
    (he : e = (d - 146097 * q - 36524 * c - 1461 * n4) / 365)
    (hn1 : n1 = e - e / 4) :
    daysSinceEpoch (1 + 400 * q + 100 * c + 4 * n4 + n1)
        + (d - 146097 * q - 36524 * c - 1461 * n4 - 365 * n1) = d
      ∧ 0 ≤ d - 146097 * q - 36524 * c - 1461 * n4 - 365 * n1
      ∧ (d - 146097 * q - 36524 * c - 1461 * n4 - 365 * n1 ≤ 364
          ∨ (d - 146097 * q - 36524 * c - 1461 * n4 - 365 * n1 = 365
              ∧ isLeap (1 + 400 * q + 100 * c + 4 * n4 + n1) = true)) := by
  have ha5 : a = 0 ∨ a = 1 ∨ a = 2 ∨ a = 3 ∨ a = 4 := by omega
  have hc4 : (c = a ∧ a ≤ 3) ∨ (c = 3 ∧ a = 4) := by omega
  have hn4b : 0 ≤ n4 ∧ n4 ≤ 24 := by omega
  have he5 : e = 0 ∨ e = 1 ∨ e = 2 ∨ e = 3 ∨ e = 4 := by omega
  have hn1b : (n1 = e ∧ e ≤ 3) ∨ (n1 = 3 ∧ e = 4) := by omega
  simp only [daysSinceEpoch, isLeap, daysPer400Years, daysPer100Years, daysPer4Years,
    Bool.and_eq_true, Bool.or_eq_true, decide_eq_true_eq, ne_eq, decide_not, Bool.not_eq_true',
    decide_eq_false_iff_not]
  have hy400 : (1 + 400 * q + 100 * c + 4 * n4 + n1 - 1) / 400 = q := by omega
  rw [hy400]
  have hy100 : (1 + 400 * q + 100 * c + 4 * n4 + n1 - 1 - 400 * q) / 100 = c := by omega
  rw [hy100]
  have hy4 : (1 + 400 * q + 100 * c + 4 * n4 + n1 - 1 - 400 * q - 100 * c) / 4 = n4 := by omega
  rw [hy4]
  refine ⟨by omega, by omega, ?_⟩
  omega

/-- The entries of the table `daysBefore`. -/
theorem daysBefore_table :
    daysBefore 0 = 0 ∧ daysBefore 1 = 31 ∧ daysBefore 2 = 59 ∧ daysBefore 3 = 90 ∧
    daysBefore 4 = 120 ∧ daysBefore 5 = 151 ∧ daysBefore 6 = 181 ∧ daysBefore 7 = 212 ∧
    daysBefore 8 = 243 ∧ daysBefore 9 = 273 ∧ daysBefore 10 = 304 ∧ daysBefore 11 = 334 ∧
    daysBefore 12 = 365 := by
  decide

/-- The month and the day of the month that `absDate` derives from `n`, the day of the year
with a leap day left out, for the month estimate `k = n / 31`. -/
theorem monthDay_case (k n : Int) (hk0 : 0 ≤ k) (hk : k ≤ 11)
    (hn : 31 * k ≤ n ∧ n < 31 * k + 31) (hn364 : n ≤ 364) :
    (daysBefore (k + 1) ≤ n →
      1 ≤ k + 1 + 1 ∧ k + 1 + 1 ≤ 12 ∧ (3 ≤ k + 1 + 1 ↔ 59 ≤ n) ∧
        daysBefore (k + 1 + 1 - 1) + (n - daysBefore (k + 1) + 1 - 1) = n) ∧
    (n < daysBefore (k + 1) →
      (3 ≤ k + 1 ↔ 59 ≤ n) ∧ daysBefore (k + 1 - 1) + (n - daysBefore k + 1 - 1) = n) := by
  obtain ⟨h0, h1, h2, h3, h4, h5, h6, h7, h8, h9, h10, h11, h12⟩ := daysBefore_table
  have hk12 : k = 0 ∨ k = 1 ∨ k = 2 ∨ k = 3 ∨ k = 4 ∨ k = 5 ∨ k = 6 ∨ k = 7 ∨ k = 8 ∨ k = 9 ∨
      k = 10 ∨ k = 11 := by omega
  rcases hk12 with h | h | h | h | h | h | h | h | h | h | h | h <;> subst h <;>
    norm_num [h0, h1, h2, h3, h4, h5, h6, h7, h8, h9, h10, h11, h12] <;> omega

/-- The month and the day of the month that `absDate` gives for a day of the year lead the
table `daysBefore` and the leap-day correction of `Date` back to that day of the year. -/
theorem monthDay_roundtrip (year yday : Int) (h0 : 0 ≤ yday)
    (h1 : yday ≤ 364 ∨ (yday = 365 ∧ isLeap year = true)) :
    let c : CivilDate :=
      if isLeap year && yday = 31 + 29 - 1 then
        ⟨year, 2, 29, yday⟩
      else
        let day := if isLeap year && yday > 31 + 29 - 1 then yday - 1 else yday
        let month := day / 31
        let stop := daysBefore (month + 1)
        if day ≥ stop then
          ⟨year, month + 1 + 1, day - stop + 1, yday⟩
        else
          ⟨year, month + 1, day - daysBefore month + 1, yday⟩
    c.year = year ∧ c.yday = yday ∧ 1 ≤ c.month ∧ c.month ≤ 12 ∧
      daysBefore (c.month - 1) + (if isLeap c.year && c.month ≥ 3 then 1 else 0) + (c.day - 1)
        = yday := by
  intro c
  by_cases hleapday : (isLeap year && decide (yday = 31 + 29 - 1)) = true
  · have hc : c = ⟨year, 2, 29, yday⟩ := if_pos hleapday
    simp only [Bool.and_eq_true, decide_eq_true_eq] at hleapday
    rw [hc]
    refine ⟨rfl, rfl, by norm_num, by norm_num, ?_⟩
    have e : daysBefore (2 - 1) = 31 := daysBefore_table.2.1
    simp only [e]
    norm_num
    omega
  · obtain ⟨day, hday, hc⟩ : ∃ day : Int,
        day = (if isLeap year && decide (yday > 31 + 29 - 1) then yday - 1 else yday) ∧
        c = if day ≥ daysBefore (day / 31 + 1) then
            ⟨year, day / 31 + 1 + 1, day - daysBefore (day / 31 + 1) + 1, yday⟩
          else ⟨year, day / 31 + 1, day - daysBefore (day / 31) + 1, yday⟩ :=
      ⟨_, rfl, if_neg hleapday⟩
    simp only [Bool.and_eq_true, decide_eq_true_eq, not_and] at hleapday
    have hadj : (isLeap year = true ∧ 59 < yday ∧ day = yday - 1) ∨
        (isLeap year = true ∧ yday < 59 ∧ day = yday) ∨
        (isLeap year = false ∧ yday ≤ 364 ∧ day = yday) := by
      cases hl : isLeap year
      · right; right
        simp only [hl, Bool.false_and, Bool.false_eq_true, if_false] at hday
        refine ⟨rfl, ?_, hday⟩
        rcases h1 with h | ⟨_, h⟩
        · exact h
        · rw [hl] at h; exact absurd h (by decide)
      · have hne := hleapday hl
        simp only [hl, Bool.true_and, decide_eq_true_eq] at hday
        by_cases hgt : yday > 31 + 29 - 1
        · left; rw [if_pos hgt] at hday; exact ⟨rfl, by omega, hday⟩
        · right; left; rw [if_neg hgt] at hday; exact ⟨rfl, by omega, hday⟩
    have hbound : 0 ≤ day ∧ day ≤ 364 := by omega
    obtain ⟨hA, hB⟩ := monthDay_case (day / 31) day (by omega) (by omega) (by omega) hbound.2
    by_cases hstop : day ≥ daysBefore (day / 31 + 1)
    · rw [if_pos hstop] at hc
      obtain ⟨m1, m2, m3, m4⟩ := hA hstop
      rw [hc]
      dsimp only
      refine ⟨rfl, rfl, m1, m2, ?_⟩
      rcases hadj with ⟨hl, _, _⟩ | ⟨hl, _, _⟩ | ⟨hl, _, _⟩ <;>
        simp only [hl, Bool.true_and, Bool.false_and, Bool.false_eq_true, if_false, ge_iff_le,
          decide_eq_true_eq] <;> omega
    · rw [if_neg hstop] at hc
      obtain ⟨m3, m4⟩ := hB (by omega)
      rw [hc]
      dsimp only
      refine ⟨rfl, rfl, by omega, by omega, ?_⟩
      rcases hadj with ⟨hl, _, _⟩ | ⟨hl, _, _⟩ | ⟨hl, _, _⟩ <;>
        simp only [hl, Bool.true_and, Bool.false_and, Bool.false_eq_true, if_false, ge_iff_le,
          decide_eq_true_eq] <;> omega

/-- Days since 0001-01-01 of a calendar date, as `Date` computes them. -/
theorem absDate_roundtrip (d : Int) :
    1 ≤ (absDate d).month ∧ (absDate d).month ≤ 12 ∧
    daysSinceEpoch (absDate d).year + daysBefore ((absDate d).month - 1)
      + (if isLeap (absDate d).year && (absDate d).month ≥ 3 then 1 else 0)
      + ((absDate d).day - 1) = d := by
  obtain ⟨h1, h2, h3⟩ := cycles_roundtrip d _ _ _ _ _ _ rfl rfl rfl rfl rfl rfl
  obtain ⟨c1, c2, c3, c4, c5⟩ := monthDay_roundtrip _ _ h2 h3
  have e1 : (absDate d).year = _ := c1
  have e5 : daysBefore ((absDate d).month - 1)
      + (if isLeap (absDate d).year && (absDate d).month ≥ 3 then 1 else 0)
      + ((absDate d).day - 1) = _ := c5
  refine ⟨c3, c4, ?_⟩
  rw [e1] at e5 ⊢
  omega


/-- What `time.Date` gives for the wall-clock date of `t` moved by `k` days, at 00:00:00 plus
`nsec` nanoseconds: the start of day number `t.abs / secondsPerDay + k` in the zone of `t`. -/
theorem Date_day_offset (t : Time) (k nsec : Int) :
    Date t.Year t.Month (t.Day + k) 0 0 0 nsec t.Location
      = ⟨((t.abs / secondsPerDay + k) * secondsPerDay - unixToInternal - t.loc.offset)
          * 1000000000 + nsec, t.loc⟩ := by
  obtain ⟨h1, h2, h3⟩ := absDate_roundtrip (t.abs / secondsPerDay)
  simp only [Time.Year, Time.Month, Time.Day, Time.Location, Time.date, Date]
  have hm : ((absDate (t.abs / secondsPerDay)).month - 1) / 12 = 0 := by omega
  have hm2 : ((absDate (t.abs / secondsPerDay)).month - 1) % 12 + 1
      = (absDate (t.abs / secondsPerDay)).month := by omega
  simp only [hm, hm2, add_zero]
  congr 1
  have h4 : daysSinceEpoch (absDate (t.abs / secondsPerDay)).year
      + daysBefore ((absDate (t.abs / secondsPerDay)).month - 1)
      + (if isLeap (absDate (t.abs / secondsPerDay)).year
            && decide ((absDate (t.abs / secondsPerDay)).month ≥ 3) then 1 else 0)
      + ((absDate (t.abs / secondsPerDay)).day + k - 1) = t.abs / secondsPerDay + k := by
    omega
  rw [h4]
  simp only [secondsPerDay, secondsPerHour]
  omega

/-- The day after the calendar day of `t` starts later than `t`. -/
theorem lt_Date_next_day (t : Time) :
    t.unixNano < (Date t.Year t.Month (t.Day + 1) 0 0 0 0 t.Location).unixNano := by
  rw [Date_day_offset]
  simp only [Time.abs, secondsPerDay, unixToInternal]
  omega

/-! ## `services/aggregation.go` -/

def aggregateIntervalDays : Int := 1

/-- One day bucket of work for one user. -/
structure AggregationJob where
  UserID : String
  From : Time
  To : Time
deriving DecidableEq, Repr

/-- The start of the day of the clock reading `now`, plus one nanosecond. -/
def getStartOfToday (now : Time) : Time :=
  Date now.Year now.Month now.Day 0 0 0 1 now.Location

/-- The `for` loop of `generateUserJobs`; the result is the sequence of jobs it sends. -/
def generateUserJobsLoop (userId : String) (end_ : Time) (from_ to_ : Time) :
    List AggregationJob :=
  if from_.Before end_ && to_.Before end_ then
    let to_ := Date from_.Year from_.Month (from_.Day + aggregateIntervalDays) 0 0 0 0
      from_.Location
    ⟨userId, from_, to_⟩ :: generateUserJobsLoop userId end_ to_ to_
  else
    []
termination_by (end_.unixNano - from_.unixNano).toNat
decreasing_by
  rename_i h
  have h1 : from_.unixNano < end_.unixNano := by
    simp only [Time.Before, Bool.and_eq_true, decide_eq_true_eq] at h
    exact h.1
  have h2 := lt_Date_next_day from_
  simp only [aggregateIntervalDays]
  omega

/-- The jobs `generateUserJobs` sends on the channel `jobs`, in order, when the clock reads
`now`. -/
def generateUserJobs (now : Time) (userId : String) (lastAggregation : Time) :
    List AggregationJob :=
  let end_ := (getStartOfToday now).Add (-1 * Second)
  let from_ :=
    if lastAggregation.Hour = 0 then
      lastAggregation
    else
      Date lastAggregation.Year lastAggregation.Month
        (lastAggregation.Day + aggregateIntervalDays) 0 0 0 0 lastAggregation.Location
  -- `var from, to time.Time`: `to` starts as the zero time
  generateUserJobsLoop userId end_ from_ zeroTime

/-- Go's `error`. -/
abbrev Error := String

/-- The field of `models.User` that `trigger` reads. -/
structure User where
  ID : String
deriving DecidableEq, Repr

/-- The fields of `models.Summary` that `trigger` reads. -/
structure Summary where
  UserID : String
  ToTime : Time
deriving DecidableEq, Repr

/-- The fields of `models.Heartbeat` that `trigger` reads. -/
structure Heartbeat where
  UserID : String
  Time : Time
deriving DecidableEq, Repr

/-- The three reads of a pass: the results of `userService.GetAll()` and
`summaryService.GetLatestByUser()`, and `heartbeatService.GetFirstUserHeartbeats` as a function
of the user IDs it is asked about. -/
structure AggregationService where
  GetAll : Except Error (List User)
  GetLatestByUser : Except Error (List Summary)
  GetFirstUserHeartbeats : List String → Except Error (List Heartbeat)

/-- A Go `map[string]time.Time`, as the list of its entries; the keys are distinct. -/
abbrev TimeMap := List (String × Time)

/-- The value `m[k]` with its `ok` flag. -/
def TimeMap.get? (m : TimeMap) (k : String) : Option Time :=
  List.lookup k m

/-- The assignment `m[k] = v`: a new entry, or a new value for the entry of `k`. -/
def TimeMap.set (m : TimeMap) (k : String) (v : Time) : TimeMap :=
  (k, v) :: m.filter (fun e => e.1 ≠ k)

/-- What one call of `trigger` does: the error it returns (`none` for `nil`), the user IDs it
asks the heartbeat store about (`none` when it does not get that far), and the jobs it sends
on the channel `jobs`, in order. -/
structure TriggerResult where
  err : Option Error
  asked : Option (List String)
  pushed : List AggregationJob
deriving DecidableEq, Repr

/-- The map `userSummaryTimes` that `trigger` builds from the latest summaries. -/
def userSummaryTimes (latestSummaries : List Summary) : TimeMap :=
  latestSummaries.foldl (fun m s => m.set s.UserID s.ToTime) []

/-- The slice `missingUserIDs` that `trigger` builds: the users without an entry in the map. -/
def missingUserIDs (users : List User) (m : TimeMap) : List String :=
  users.foldl (fun acc u => if (m.get? u.ID).isNone then acc ++ [u.ID] else acc) []

/-- One pass of `trigger` when the clock reads `now`.  Go leaves the order in which `range`
visits a map open: `rangeOrder` is that order, a rearrangement of the entries. -/
def trigger (rangeOrder : TimeMap → TimeMap) (now : Time) (srv : AggregationService) :
    TriggerResult :=
  match srv.GetAll with
  | .error err => ⟨some err, none, []⟩
  | .ok users =>
    match srv.GetLatestByUser with
    | .error err => ⟨some err, none, []⟩
    | .ok latestSummaries =>
      let userSummaryTimes := userSummaryTimes latestSummaries
      let missingUserIDs := missingUserIDs users userSummaryTimes
      match srv.GetFirstUserHeartbeats missingUserIDs with
      | .error err => ⟨some err, some missingUserIDs, []⟩
      | .ok firstHeartbeats =>
        let jobs := (rangeOrder userSummaryTimes).foldl
          (fun jobs e => jobs ++ generateUserJobs now e.1 e.2) []
        let jobs := firstHeartbeats.foldl
          (fun jobs h => jobs ++ generateUserJobs now h.UserID h.Time) jobs
        ⟨none, some missingUserIDs, jobs⟩

/-! ## Notions of the specification -/

/-- The start of day number `n` (days since 0001-01-01) on the wall clock of `loc`. -/
def startOfDay (loc : Location) (n : Int) : Time :=
  ⟨(n * secondsPerDay - unixToInternal - loc.offset) * 1000000000, loc⟩

/-- The start of the current day: midnight of the day of the clock reading `now`. -/
def startOfCurrentDay (now : Time) : Time :=
  Date now.Year now.Month now.Day 0 0 0 0 now.Location

/-- Midnight of the day before the current day. -/
def startOfYesterday (now : Time) : Time :=
  Date now.Year now.Month (now.Day - 1) 0 0 0 0 now.Location

/-- Midnight of the day after the day of `t`. -/
def startOfNextDay (t : Time) : Time :=
  Date t.Year t.Month (t.Day + 1) 0 0 0 0 t.Location

/-- Whether `t` is exactly at midnight on its wall clock. -/
def isMidnight (t : Time) : Bool :=
  t.Hour = 0 && t.Minute = 0 && t.Second = 0 && t.Nanosecond = 0

/-- Twenty-four hours. -/
def Day : Duration := 24 * Hour

/-- The day buckets `[m, m + 1), …, [m + k - 1, m + k)` of a zone, by day number. -/
def dayBuckets (userId : String) (loc : Location) (m : Int) (k : Nat) : List AggregationJob :=
  (List.range k).map fun (i : Nat) =>
    ⟨userId, startOfDay loc (m + (i : Int)), startOfDay loc (m + (i : Int) + 1)⟩

/-- The end time the latest-summary mapping holds for a user: that of the user's summary, of
the last one listed when the store lists several. -/
def latestEnd (latestSummaries : List Summary) (id : String) : Option Time :=
  ((latestSummaries.filter fun s => s.UserID = id).getLast?).map fun s => s.ToTime

/-- The clock of the scenarios of the specification: noon of 2024-01-06, in UTC. -/
def scenarioNow : Time := Date 2024 1 6 12 0 0 0 UTC

/-- The stores of the scenarios of the specification: `U1` has no summary and a first heartbeat
at 2024-01-03T14:00:00, the latest summary of `U2` ends at 2024-01-05T00:00:00, and `U3` has
neither a summary nor a heartbeat. -/
def scenarioService : AggregationService where
  GetAll := .ok [⟨"U1"⟩, ⟨"U2"⟩, ⟨"U3"⟩]
  GetLatestByUser := .ok [⟨"U2", Date 2024 1 5 0 0 0 0 UTC⟩]
  GetFirstUserHeartbeats := fun ids =>
    .ok (if "U1" ∈ ids then [⟨"U1", Date 2024 1 3 14 0 0 0 UTC⟩] else [])

/-- The stores of the scenarios after a pass at `scenarioNow` whose jobs were all computed and
persisted: the latest summaries of `U1` and of `U2` end at 2024-01-06T00:00:00. -/
def scenarioServiceAfter : AggregationService where
  GetAll := .ok [⟨"U1"⟩, ⟨"U2"⟩, ⟨"U3"⟩]
  GetLatestByUser :=
    .ok [⟨"U1", Date 2024 1 6 0 0 0 0 UTC⟩, ⟨"U2", Date 2024 1 6 0 0 0 0 UTC⟩]
  GetFirstUserHeartbeats := fun ids =>
    .ok (if "U1" ∈ ids then [⟨"U1", Date 2024 1 3 14 0 0 0 UTC⟩] else [])

/-- A frontier of a user once a pass at the clock reading `now` has had all its jobs computed
and persisted: the end of the last job the pass sent for the user, or a frontier for which the
pass sent the user no job. -/
def settled (now : Time) (userId : String) (t : Time) : Prop :=
  (∃ frontier j, (generateUserJobs now userId frontier).getLast? = some j ∧ j.To = t) ∨
    generateUserJobs now userId t = []

/-! ## Midnights -/

/-- The day number of the start of day `n` is `n`. -/
theorem startOfDay_abs (loc : Location) (n : Int) :
    (startOfDay loc n).abs / secondsPerDay = n := by
  simp only [startOfDay, Time.abs, secondsPerDay, unixToInternal]
  omega

theorem startOfNextDay_eq (t : Time) :
    startOfNextDay t = startOfDay t.loc (t.abs / secondsPerDay + 1) := by
  rw [startOfNextDay, Date_day_offset, startOfDay, add_zero]

theorem startOfNextDay_startOfDay (loc : Location) (n : Int) :
    startOfNextDay (startOfDay loc n) = startOfDay loc (n + 1) := by
  rw [startOfNextDay_eq, startOfDay_abs]
  rfl

theorem startOfCurrentDay_eq (now : Time) :
    startOfCurrentDay now = startOfDay now.loc (now.abs / secondsPerDay) := by
  have h := Date_day_offset now 0 0
  rw [add_zero, add_zero, add_zero] at h
  rw [startOfCurrentDay, h, startOfDay]

theorem startOfYesterday_eq (now : Time) :
    startOfYesterday now = startOfDay now.loc (now.abs / secondsPerDay - 1) := by
  have h := Date_day_offset now (-1) 0
  rw [add_zero] at h
  rw [startOfYesterday, sub_eq_add_neg, h]
  rfl

theorem getStartOfToday_eq (now : Time) :
    getStartOfToday now = (startOfDay now.loc (now.abs / secondsPerDay)).Add 1 := by
  have h := Date_day_offset now 0 1
  rw [add_zero, add_zero] at h
  rw [getStartOfToday, h, startOfDay, Time.Add]

/-- A time is at midnight exactly when it is the start of its day. -/
theorem isMidnight_iff (t : Time) :
    isMidnight t = true ↔ t = startOfDay t.loc (t.abs / secondsPerDay) := by
  obtain ⟨u, loc⟩ := t
  simp only [isMidnight, Time.Hour, Time.Minute, Time.Second, Time.Nanosecond, Time.abs,
    startOfDay, secondsPerDay, secondsPerHour, unixToInternal, Bool.and_eq_true,
    decide_eq_true_eq, Time.mk.injEq, and_true]
  omega


/-! ## The loop of `generateUserJobs` -/

/-- One turn of the loop. -/
theorem generateUserJobsLoop_eq (userId : String) (end_ from_ to_ : Time) :
    generateUserJobsLoop userId end_ from_ to_ =
      if from_.Before end_ && to_.Before end_ then
        ⟨userId, from_, startOfNextDay from_⟩ ::
          generateUserJobsLoop userId end_ (startOfNextDay from_) (startOfNextDay from_)
      else [] := by
  rw [generateUserJobsLoop]
  rfl

theorem dayBuckets_succ (userId : String) (loc : Location) (m : Int) (k : Nat) :
    dayBuckets userId loc m (k + 1) =
      ⟨userId, startOfDay loc m, startOfDay loc (m + 1)⟩ :: dayBuckets userId loc (m + 1) k := by
  simp only [dayBuckets, List.range_succ_eq_map, List.map_cons, List.map_map]
  refine congrArg₂ _ ?_ ?_
  · simp
  · apply List.map_congr_left
    intro i _
    simp only [Function.comp, Nat.succ_eq_add_one, Nat.cast_add, Nat.cast_one]
    rw [show m + ((i : Int) + 1) = m + 1 + i by ring]

/-- The loop started at a midnight, for an end boundary that lies after the start of day
`n - 1` and not after the start of day `n`: one bucket for every day from `m` to `n - 1`. -/
theorem generateUserJobsLoop_startOfDay (userId : String) (end_ : Time) (loc : Location)
    (n : Int) (hn1 : (startOfDay loc (n - 1)).unixNano < end_.unixNano)
    (hn2 : end_.unixNano ≤ (startOfDay loc n).unixNano) :
    ∀ (k : Nat) (m : Int) (to_ : Time), (n - m).toNat = k →
      ((startOfDay loc m).Before end_ = true → to_.Before end_ = true) →
      generateUserJobsLoop userId end_ (startOfDay loc m) to_ = dayBuckets userId loc m k := by
  intro k
  induction k with
  | zero =>
    intro m to_ hk _
    have hm : n ≤ m := by omega
    have hb : (startOfDay loc m).Before end_ = false := by
      simp only [Time.Before, startOfDay, secondsPerDay, decide_eq_false_iff_not] at hn2 ⊢
      omega
    rw [generateUserJobsLoop_eq, hb]
    rfl
  | succ k ih =>
    intro m to_ hk hto
    have hm : m ≤ n - 1 := by omega
    have hb : (startOfDay loc m).Before end_ = true := by
      simp only [Time.Before, startOfDay, secondsPerDay, decide_eq_true_eq] at hn1 ⊢
      omega
    rw [generateUserJobsLoop_eq, hb, hto hb, startOfNextDay_startOfDay, dayBuckets_succ,
      ih (m + 1) _ (by omega) (fun h => h)]
    rfl


/-- The loop sends nothing when its start is not before the end boundary. -/
theorem generateUserJobsLoop_nil (userId : String) (end_ from_ to_ : Time)
    (h : from_.Before end_ = false) : generateUserJobsLoop userId end_ from_ to_ = [] := by
  rw [generateUserJobsLoop_eq, h]
  rfl

theorem generateUserJobsLoop_eq_nil_iff (userId : String) (end_ from_ to_ : Time) :
    generateUserJobsLoop userId end_ from_ to_ = [] ↔
      (from_.Before end_ && to_.Before end_) = false := by
  rw [generateUserJobsLoop_eq]
  cases h : (from_.Before end_ && to_.Before end_) <;> simp

theorem startOfNextDay_gt (t : Time) : t.unixNano < (startOfNextDay t).unixNano :=
  lt_Date_next_day t

/-- What holds of the jobs of the loop for any start and any end boundary: they carry the user
ID, start before the end boundary and not before the loop's start, end at the midnight after
their start, start later and later, and the last one ends at or after the end boundary. -/
theorem generateUserJobsLoop_spec (userId : String) (end_ : Time) (from_ to_ : Time) :
    (∀ j ∈ generateUserJobsLoop userId end_ from_ to_,
        j.UserID = userId ∧ j.From.Before end_ = true ∧ j.To = startOfNextDay j.From ∧
          from_.unixNano ≤ j.From.unixNano ∧ (j.From = from_ ∨ isMidnight j.From = true) ∧
          j.From.loc = from_.loc) ∧
      (generateUserJobsLoop userId end_ from_ to_).Pairwise
        (fun a b => a.From.unixNano < b.From.unixNano) ∧
      (∀ j, (generateUserJobsLoop userId end_ from_ to_).getLast? = some j →
        j.To.Before end_ = false) := by
  induction from_, to_ using generateUserJobsLoop.induct userId end_ with
  | case1 from_ to_ hc next ih =>
    have hnext : next = startOfNextDay from_ := rfl
    have hlt := startOfNextDay_gt from_
    have hmid : isMidnight next = true := by
      rw [hnext, startOfNextDay_eq, isMidnight_iff, startOfDay_abs]
      rfl
    rw [← hnext] at hlt
    obtain ⟨ih1, ih2, ih3⟩ := ih
    have hl : generateUserJobsLoop userId end_ from_ to_ =
        ⟨userId, from_, next⟩ :: generateUserJobsLoop userId end_ next next := by
      rw [generateUserJobsLoop_eq userId end_ from_ to_, hc, hnext]
      rfl
    rw [hl]
    simp only [Bool.and_eq_true] at hc
    refine ⟨?_, ?_, ?_⟩
    · intro j hj
      rcases List.mem_cons.1 hj with rfl | hj
      · exact ⟨rfl, hc.1, hnext, le_refl _, Or.inl rfl, rfl⟩
      · obtain ⟨a, b, c, d, e, f⟩ := ih1 j hj
        refine ⟨a, b, c, by omega, Or.inr ?_, ?_⟩
        · rcases e with e | e
          · rw [e]; exact hmid
          · exact e
        · rw [f, hnext, startOfNextDay_eq]
          rfl
    · refine List.pairwise_cons.2 ⟨?_, ih2⟩
      intro j hj
      have := (ih1 j hj).2.2.2.1
      show from_.unixNano < j.From.unixNano
      omega
    · intro j hj
      cases hrest : generateUserJobsLoop userId end_ next next with
      | nil =>
        rw [hrest] at hj
        simp only [List.getLast?_singleton, Option.some.injEq] at hj
        rw [← hj]
        have := (generateUserJobsLoop_eq_nil_iff userId end_ next next).1 hrest
        simpa using this
      | cons x xs =>
        rw [hrest, List.getLast?_cons_cons] at hj
        rw [hrest] at ih3
        exact ih3 j hj
  | case2 from_ to_ hc =>
    have hl : generateUserJobsLoop userId end_ from_ to_ = [] :=
      (generateUserJobsLoop_eq_nil_iff userId end_ from_ to_).2 (by simpa using hc)
    rw [hl]
    simp

/-! ## `generateUserJobs` -/

/-- The end boundary of `generateUserJobs`: one second before the start of the current day,
plus the nanosecond of `getStartOfToday`. -/
theorem end_unixNano (now : Time) :
    (getStartOfToday now).Add (-1 * Second) =
      ⟨(now.abs / secondsPerDay * secondsPerDay - unixToInternal - now.loc.offset) * 1000000000
        + 1 - 1000000000, now.loc⟩ := by
  rw [getStartOfToday_eq]
  simp only [Time.Add, startOfDay, Second, Nanosecond, Time.mk.injEq, and_true]
  omega

/-- With a clock that is not before the Unix epoch, the zero time is before the end boundary. -/
theorem zeroTime_before_end (now : Time) (hclock : 0 ≤ now.unixNano) :
    zeroTime.Before ((getStartOfToday now).Add (-1 * Second)) = true := by
  rw [end_unixNano]
  simp only [Time.Before, zeroTime, Time.abs, secondsPerDay, unixToInternal, decide_eq_true_eq]
  omega

/-- The start of the loop: the frontier itself when its hour is zero, the next midnight
otherwise. -/
theorem generateUserJobs_eq_loop (now : Time) (userId : String) (frontier : Time) :
    generateUserJobs now userId frontier =
      generateUserJobsLoop userId ((getStartOfToday now).Add (-1 * Second))
        (if frontier.Hour = 0 then frontier else startOfNextDay frontier) zeroTime := by
  rfl

/-- From a midnight of the local zone, `generateUserJobs` sends one bucket for every day from
that midnight up to yesterday. -/
theorem generateUserJobs_startOfDay (now : Time) (userId : String) (m : Int)
    (hclock : 0 ≤ now.unixNano) :
    generateUserJobsLoop userId ((getStartOfToday now).Add (-1 * Second))
        (startOfDay now.loc m) zeroTime
      = dayBuckets userId now.loc m (now.abs / secondsPerDay - m).toNat := by
  apply generateUserJobsLoop_startOfDay userId _ now.loc (now.abs / secondsPerDay)
  · rw [end_unixNano]
    simp only [startOfDay, secondsPerDay]
    omega
  · rw [end_unixNano]
    simp only [startOfDay, secondsPerDay]
    omega
  · rfl
  · intro _
    exact zeroTime_before_end now hclock

/-- A frontier that is not before the end boundary of the code gives no job, in any zone. -/
theorem generateUserJobs_nil_of_not_before (now : Time) (userId : String) (frontier : Time)
    (h : frontier.Before ((getStartOfToday now).Add (-1 * Second)) = false) :
    generateUserJobs now userId frontier = [] := by
  rw [generateUserJobs_eq_loop]
  apply generateUserJobsLoop_nil
  split_ifs with hh
  · exact h
  · have := startOfNextDay_gt frontier
    simp only [Time.Before, decide_eq_false_iff_not, not_lt] at h ⊢
    omega

/-- The jobs depend on the clock only through the current day. -/
theorem generateUserJobs_same_day (now now' : Time) (userId : String) (frontier : Time)
    (hday : startOfCurrentDay now' = startOfCurrentDay now) :
    generateUserJobs now' userId frontier = generateUserJobs now userId frontier := by
  have h : getStartOfToday now' = getStartOfToday now := by
    rw [getStartOfToday_eq, getStartOfToday_eq, ← startOfCurrentDay_eq, ← startOfCurrentDay_eq,
      hday]
  rw [generateUserJobs_eq_loop, generateUserJobs_eq_loop, h]

/-- The last job of `generateUserJobs` ends at a midnight that is not before the end
boundary. -/
theorem generateUserJobs_getLast (now : Time) (userId : String) (frontier : Time)
    (j : AggregationJob) (hj : (generateUserJobs now userId frontier).getLast? = some j) :
    isMidnight j.To = true ∧ j.To.Before ((getStartOfToday now).Add (-1 * Second)) = false := by
  rw [generateUserJobs_eq_loop] at hj
  obtain ⟨h1, _, h3⟩ := generateUserJobsLoop_spec userId
    ((getStartOfToday now).Add (-1 * Second))
    (if frontier.Hour = 0 then frontier else startOfNextDay frontier) zeroTime
  refine ⟨?_, h3 j hj⟩
  have hmem := List.mem_of_mem_getLast? hj
  rw [(h1 j hmem).2.2.1, startOfNextDay_eq, isMidnight_iff, startOfDay_abs]
  rfl

/-! ## The map of latest summaries -/

theorem TimeMap.mem_set (m : TimeMap) (k : String) (v : Time) (id : String) (t : Time) :
    (id, t) ∈ m.set k v ↔ (id = k ∧ t = v) ∨ (id ≠ k ∧ (id, t) ∈ m) := by
  simp only [TimeMap.set, List.mem_cons, Prod.mk.injEq, List.mem_filter, ne_eq,
    decide_not, Bool.not_eq_true', decide_eq_false_iff_not]
  tauto

theorem TimeMap.keys_set (m : TimeMap) (k : String) (v : Time)
    (h : (m.map Prod.fst).Nodup) : ((m.set k v).map Prod.fst).Nodup := by
  simp only [TimeMap.set, List.map_cons, List.nodup_cons, List.mem_map, List.mem_filter,
    not_exists, not_and]
  constructor
  · rintro ⟨a, b⟩ ⟨_, hne⟩ heq
    simp only [ne_eq, decide_not, Bool.not_eq_true', decide_eq_false_iff_not] at hne
    exact hne heq
  · exact (List.Nodup.sublist ((List.filter_sublist _).map _) h)

theorem TimeMap.get?_eq_none (m : TimeMap) (k : String) :
    m.get? k = none ↔ ∀ e ∈ m, e.1 ≠ k := by
  simp only [TimeMap.get?, List.lookup_eq_none_iff, bne_iff_ne, ne_eq]
  constructor
  · intro h e he heq; exact h e he heq.symm
  · intro h e he heq; exact h e he heq.symm

theorem foldl_set_spec (sums : List Summary) :
    ∀ m : TimeMap, (m.map Prod.fst).Nodup →
      ((sums.foldl (fun m s => m.set s.UserID s.ToTime) m).map Prod.fst).Nodup ∧
      ∀ id t, (id, t) ∈ sums.foldl (fun m s => m.set s.UserID s.ToTime) m ↔
        latestEnd sums id = some t ∨ (latestEnd sums id = none ∧ (id, t) ∈ m) := by
  induction sums with
  | nil =>
    intro m hm
    exact ⟨hm, fun id t => by simp [latestEnd]⟩
  | cons s rest ih =>
    intro m hm
    obtain ⟨h1, h2⟩ := ih (m.set s.UserID s.ToTime) (TimeMap.keys_set m _ _ hm)
    refine ⟨h1, fun id t => ?_⟩
    rw [List.foldl_cons, h2, TimeMap.mem_set]
    by_cases hid : s.UserID = id
    · cases hrest : rest.filter (fun s => s.UserID = id) with
      | nil =>
        simp [latestEnd, hrest, hid, List.filter_cons]
        exact eq_comm
      | cons x xs =>
        simp [latestEnd, hrest, hid, List.filter_cons, List.getLast?_cons_cons]
    · have hf : (s :: rest).filter (fun s => s.UserID = id)
          = rest.filter (fun s => s.UserID = id) := by
        simp [List.filter_cons, hid]
      have hne : id ≠ s.UserID := fun h => hid h.symm
      simp only [latestEnd, hf, hne, false_and, ne_eq, not_false_eq_true, true_and, false_or]

/-- The latest-summary mapping holds one entry for every user with a summary: the end time of
that summary. -/
theorem userSummaryTimes_spec (sums : List Summary) :
    ((userSummaryTimes sums).map Prod.fst).Nodup ∧
      ∀ id t, (id, t) ∈ userSummaryTimes sums ↔ latestEnd sums id = some t := by
  obtain ⟨h1, h2⟩ := foldl_set_spec sums [] List.nodup_nil
  refine ⟨h1, fun id t => ?_⟩
  rw [userSummaryTimes, h2]
  simp

theorem missingUserIDs_eq (users : List User) (m : TimeMap) :
    missingUserIDs users m = (users.map fun u => u.ID).filter fun id => (m.get? id).isNone := by
  have h : ∀ (l : List User) (acc : List String),
      l.foldl (fun acc u => if (m.get? u.ID).isNone then acc ++ [u.ID] else acc) acc
        = acc ++ (l.map fun u => u.ID).filter fun id => (m.get? id).isNone := by
    intro l
    induction l with
    | nil => intro acc; simp
    | cons u l ih =>
      intro acc
      rw [List.foldl_cons, ih]
      by_cases hu : (m.get? u.ID).isNone = true
      · simp [hu, List.filter_cons]
      · simp [hu, List.filter_cons]
  rw [missingUserIDs, h]
  simp

theorem foldl_append_eq_flatMap {α β : Type} (f : α → List β) (l : List α) :
    ∀ init : List β, l.foldl (fun q x => q ++ f x) init = init ++ l.flatMap f := by
  induction l with
  | nil => intro init; simp
  | cons x l ih => intro init; rw [List.foldl_cons, ih]; simp

/-- What a pass sends when its three reads succeed. -/
theorem trigger_ok (rangeOrder : TimeMap → TimeMap) (now : Time) (srv : AggregationService)
    (users : List User) (sums : List Summary) (hbs : List Heartbeat)
    (h1 : srv.GetAll = .ok users) (h2 : srv.GetLatestByUser = .ok sums)
    (h3 : srv.GetFirstUserHeartbeats (missingUserIDs users (userSummaryTimes sums)) = .ok hbs) :
    trigger rangeOrder now srv =
      ⟨none, some (missingUserIDs users (userSummaryTimes sums)),
        (rangeOrder (userSummaryTimes sums)).flatMap (fun e => generateUserJobs now e.1 e.2)
          ++ hbs.flatMap (fun h => generateUserJobs now h.UserID h.Time)⟩ := by
  simp only [trigger, h1, h2, h3, foldl_append_eq_flatMap, List.nil_append]

/-- Every job of `generateUserJobs` carries the user ID it was called with. -/
theorem generateUserJobs_UserID (now : Time) (userId : String) (frontier : Time) :
    ∀ j ∈ generateUserJobs now userId frontier, j.UserID = userId := by
  intro j hj
  rw [generateUserJobs_eq_loop] at hj
  exact ((generateUserJobsLoop_spec userId _ _ _).1 j hj).1

/-- The jobs of `generateUserJobs` start later and later. -/
theorem generateUserJobs_increasing (now : Time) (userId : String) (frontier : Time) :
    (generateUserJobs now userId frontier).Pairwise fun a b => a.From.Before b.From = true := by
  rw [generateUserJobs_eq_loop]
  refine List.Pairwise.imp ?_ (generateUserJobsLoop_spec userId _ _ _).2.1
  intro a b h
  simpa [Time.Before] using h

theorem latestEnd_eq_none (sums : List Summary) (id : String) :
    latestEnd sums id = none ↔ ∀ s ∈ sums, s.UserID ≠ id := by
  simp [latestEnd, List.getLast?_eq_none_iff, List.filter_eq_nil_iff]

/-- A user has no entry in the latest-summary mapping exactly when no summary is theirs. -/
theorem userSummaryTimes_get?_eq_none (sums : List Summary) (id : String) :
    (userSummaryTimes sums).get? id = none ↔ ∀ s ∈ sums, s.UserID ≠ id := by
  rw [TimeMap.get?_eq_none, ← latestEnd_eq_none]
  constructor
  · intro h
    cases hl : latestEnd sums id with
    | none => rfl
    | some t => exact absurd rfl (h (id, t) (((userSummaryTimes_spec sums).2 id t).2 hl))
  · rintro h ⟨a, t⟩ he rfl
    rw [((userSummaryTimes_spec sums).2 a t).1 he] at h
    exact absurd h (by simp)

/-- A settled frontier gives no job on the same day. -/
theorem generateUserJobs_settled (now now' : Time) (userId : String) (t : Time)
    (hday : startOfCurrentDay now' = startOfCurrentDay now) (h : settled now userId t) :
    generateUserJobs now' userId t = [] := by
  rw [generateUserJobs_same_day now now' userId t hday]
  rcases h with ⟨frontier, j, hj, rfl⟩ | h
  · exact generateUserJobs_nil_of_not_before now userId j.To
      (generateUserJobs_getLast now userId frontier j hj).2
  · exact h

/-- With a non-zero hour, the loop starts at the midnight after the frontier: the first job,
when there is one, starts there. -/
theorem generateUserJobs_head_of_hour_ne_zero (now : Time) (userId : String) (frontier : Time)
    (hh : frontier.Hour ≠ 0) :
    ∀ j, (generateUserJobs now userId frontier).head? = some j →
      j.From = startOfNextDay frontier := by
  intro j hj
  rw [generateUserJobs_eq_loop, if_neg hh, generateUserJobsLoop_eq] at hj
  split_ifs at hj
  · simp only [List.head?_cons, Option.some.injEq] at hj
    rw [← hj]
  · simp at hj

/-- Every job ends at the midnight after its start, and starts at the frontier or at a
midnight. -/
theorem generateUserJobs_aligned (now : Time) (userId : String) (frontier : Time) :
    ∀ j ∈ generateUserJobs now userId frontier,
      j.To = startOfNextDay j.From ∧ isMidnight j.To = true ∧
        (j.From = frontier ∨ isMidnight j.From = true) := by
  intro j hj
  rw [generateUserJobs_eq_loop] at hj
  obtain ⟨_, _, hto, _, hfrom, _⟩ := (generateUserJobsLoop_spec userId _ _ _).1 j hj
  refine ⟨hto, ?_, ?_⟩
  · rw [hto, startOfNextDay_eq, isMidnight_iff, startOfDay_abs]
    rfl
  · rcases hfrom with h | h
    · split_ifs at h with hh
      · exact Or.inl h
      · right
        rw [h, startOfNextDay_eq, isMidnight_iff, startOfDay_abs]
        rfl
    · exact Or.inr h

/-! ## The scenarios of the specification, evaluated -/

theorem scenario_U1 :
    generateUserJobs scenarioNow "U1" (Date 2024 1 3 14 0 0 0 UTC) =
      [⟨"U1", Date 2024 1 4 0 0 0 0 UTC, Date 2024 1 5 0 0 0 0 UTC⟩,
       ⟨"U1", Date 2024 1 5 0 0 0 0 UTC, Date 2024 1 6 0 0 0 0 UTC⟩] := by
  rw [generateUserJobs_eq_loop, if_neg (by decide), generateUserJobsLoop_eq,
    if_pos (by decide), generateUserJobsLoop_eq, if_pos (by decide), generateUserJobsLoop_eq,
    if_neg (by decide)]
  decide

theorem scenario_U2 :
    generateUserJobs scenarioNow "U2" (Date 2024 1 5 0 0 0 0 UTC) =
      [⟨"U2", Date 2024 1 5 0 0 0 0 UTC, Date 2024 1 6 0 0 0 0 UTC⟩] := by
  rw [generateUserJobs_eq_loop, if_pos (by decide), generateUserJobsLoop_eq,
    if_pos (by decide), generateUserJobsLoop_eq, if_neg (by decide)]
  decide

theorem scenario_zero_hour :
    generateUserJobs scenarioNow "U1" (Date 2024 1 3 0 30 0 0 UTC) =
      [⟨"U1", Date 2024 1 3 0 30 0 0 UTC, Date 2024 1 4 0 0 0 0 UTC⟩,
       ⟨"U1", Date 2024 1 4 0 0 0 0 UTC, Date 2024 1 5 0 0 0 0 UTC⟩,
       ⟨"U1", Date 2024 1 5 0 0 0 0 UTC, Date 2024 1 6 0 0 0 0 UTC⟩] := by
  rw [generateUserJobs_eq_loop, if_pos (by decide), generateUserJobsLoop_eq,
    if_pos (by decide), generateUserJobsLoop_eq, if_pos (by decide), generateUserJobsLoop_eq,
    if_pos (by decide), generateUserJobsLoop_eq, if_neg (by decide)]
  decide

theorem scenario_reads :
    scenarioService.GetFirstUserHeartbeats
        (missingUserIDs [⟨"U1"⟩, ⟨"U2"⟩, ⟨"U3"⟩]
          (userSummaryTimes [⟨"U2", Date 2024 1 5 0 0 0 0 UTC⟩]))
      = .ok [⟨"U1", Date 2024 1 3 14 0 0 0 UTC⟩] := by
  rfl

theorem scenario_pushed :
    (trigger id scenarioNow scenarioService).pushed =
      [⟨"U2", Date 2024 1 5 0 0 0 0 UTC, Date 2024 1 6 0 0 0 0 UTC⟩,
       ⟨"U1", Date 2024 1 4 0 0 0 0 UTC, Date 2024 1 5 0 0 0 0 UTC⟩,
       ⟨"U1", Date 2024 1 5 0 0 0 0 UTC, Date 2024 1 6 0 0 0 0 UTC⟩] := by
  rw [trigger_ok id scenarioNow scenarioService _ _ _ rfl rfl scenario_reads]
  show (userSummaryTimes [⟨"U2", Date 2024 1 5 0 0 0 0 UTC⟩]).flatMap
      (fun e => generateUserJobs scenarioNow e.1 e.2)
    ++ [(⟨"U1", Date 2024 1 3 14 0 0 0 UTC⟩ : Heartbeat)].flatMap
      (fun h => generateUserJobs scenarioNow h.UserID h.Time) = _
  have hm : userSummaryTimes [⟨"U2", Date 2024 1 5 0 0 0 0 UTC⟩]
      = [("U2", Date 2024 1 5 0 0 0 0 UTC)] := rfl
  rw [hm]
  simp only [List.flatMap_cons, List.flatMap_nil, List.append_nil, scenario_U1, scenario_U2]
  rfl

/-! ## The claims -/

/-- C2, at a frontier with hour zero.  On 2024-01-06, for the frontier 2024-01-03T00:30:00,
which is not at the start of a day, `generateUserJobs` sends jobs, and the first of them starts
at the frontier itself, not at the midnight of the following day, 2024-01-04T00:00:00. -/
theorem generateUserJobs_zero_hour_first :
    isMidnight (Date 2024 1 3 0 30 0 0 UTC) = false ∧
      (Date 2024 1 3 0 30 0 0 UTC).Minute = 30 ∧
      (generateUserJobs scenarioNow "U1" (Date 2024 1 3 0 30 0 0 UTC)).head? =
        some ⟨"U1", Date 2024 1 3 0 30 0 0 UTC, Date 2024 1 4 0 0 0 0 UTC⟩ ∧
      startOfNextDay (Date 2024 1 3 0 30 0 0 UTC) = Date 2024 1 4 0 0 0 0 UTC ∧
      Date 2024 1 3 0 30 0 0 UTC ≠ Date 2024 1 4 0 0 0 0 UTC := by
  refine ⟨by decide, by decide, ?_, by decide, by decide⟩
  rw [scenario_zero_hour]
  rfl

/-- C3, as the code has it. With a clock that is not before the Unix epoch: for the frontier at
the start of yesterday `generateUserJobs` sends exactly one job, the bucket from yesterday's
midnight to today's midnight; it sends no job, the user being fully caught up, for the
frontier at the start of the current day. -/
theorem generateUserJobs_startOfYesterday (now : Time) (userId : String)
    (hclock : 0 ≤ now.unixNano) :
    generateUserJobs now userId (startOfYesterday now) =
        [⟨userId, startOfYesterday now, startOfCurrentDay now⟩] ∧
      generateUserJobs now userId (startOfCurrentDay now) = [] := by
  have hy : isMidnight (startOfYesterday now) = true := by
    rw [startOfYesterday_eq, isMidnight_iff, startOfDay_abs]
    rfl
  have ht : isMidnight (startOfCurrentDay now) = true := by
    rw [startOfCurrentDay_eq, isMidnight_iff, startOfDay_abs]
    rfl
  have hhour : ∀ t : Time, isMidnight t = true → t.Hour = 0 := by
    intro t h
    simp only [isMidnight, Bool.and_eq_true, decide_eq_true_eq] at h
    exact h.1.1.1
  constructor
  · rw [generateUserJobs_eq_loop, if_pos (hhour _ hy), startOfYesterday_eq,
      generateUserJobs_startOfDay now userId _ hclock, startOfCurrentDay_eq]
    have hk : (now.abs / secondsPerDay - (now.abs / secondsPerDay - 1)).toNat = 1 := by omega
    rw [hk, dayBuckets_succ, sub_add_cancel]
    rfl
  · rw [generateUserJobs_eq_loop, if_pos (hhour _ ht), startOfCurrentDay_eq,
      generateUserJobs_startOfDay now userId _ hclock]
    have hk : (now.abs / secondsPerDay - now.abs / secondsPerDay).toNat = 0 := by omega
    rw [hk]
    rfl

theorem generateUserJobs_startOfYesterday_witness :
    0 ≤ scenarioNow.unixNano ∧
      generateUserJobs scenarioNow "U2" (startOfYesterday scenarioNow) =
        [⟨"U2", startOfYesterday scenarioNow, startOfCurrentDay scenarioNow⟩] ∧
      generateUserJobs scenarioNow "U2" (startOfCurrentDay scenarioNow) = [] :=
  ⟨by decide, generateUserJobs_startOfYesterday scenarioNow "U2" (by decide)⟩

/-- C3 fails as stated: on 2024-01-06, for the frontier 2024-01-05T00:00:00, the start of
yesterday, `generateUserJobs` sends a job. -/
theorem yesterday_frontier_sends_job :
    startOfYesterday scenarioNow = Date 2024 1 5 0 0 0 0 UTC ∧
      generateUserJobs scenarioNow "U2" (Date 2024 1 5 0 0 0 0 UTC) ≠ [] := by
  refine ⟨by decide, ?_⟩
  rw [scenario_U2]
  exact List.cons_ne_nil _ _

/-- C5. For a frontier of the local zone, aligned to midnight or not, every job that
`generateUserJobs` sends starts strictly before the start of the current day and ends not
later than the start of the current day. -/
theorem generateUserJobs_before_today (now : Time) (userId : String) (frontier : Time)
    (hloc : frontier.loc = now.loc) :
    ∀ j ∈ generateUserJobs now userId frontier,
      j.From.Before (startOfCurrentDay now) = true ∧
        (startOfCurrentDay now).Before j.To = false := by
  intro j hj
  rw [generateUserJobs_eq_loop] at hj
  obtain ⟨_, hb, hto, _, _, hl⟩ := (generateUserJobsLoop_spec userId _ _ _).1 j hj
  have hl2 : j.From.loc = now.loc := by
    rw [hl]
    split_ifs
    · exact hloc
    · rw [startOfNextDay_eq]; exact hloc
  rw [end_unixNano] at hb
  rw [hto, startOfNextDay_eq, startOfCurrentDay_eq, hl2]
  simp only [Time.Before, startOfDay, Time.abs, secondsPerDay, unixToInternal,
    decide_eq_true_eq, decide_eq_false_iff_not, not_lt, hl2] at hb ⊢
  constructor <;> omega

theorem generateUserJobs_before_today_witness :
    (Date 2024 1 3 0 30 0 0 UTC).loc = scenarioNow.loc ∧
      (⟨"U1", Date 2024 1 5 0 0 0 0 UTC, Date 2024 1 6 0 0 0 0 UTC⟩ : AggregationJob)
        ∈ generateUserJobs scenarioNow "U1" (Date 2024 1 3 0 30 0 0 UTC) ∧
      (Date 2024 1 5 0 0 0 0 UTC).Before (startOfCurrentDay scenarioNow) = true ∧
      (startOfCurrentDay scenarioNow).Before (Date 2024 1 6 0 0 0 0 UTC) = false := by
  have hmem : (⟨"U1", Date 2024 1 5 0 0 0 0 UTC, Date 2024 1 6 0 0 0 0 UTC⟩ : AggregationJob)
      ∈ generateUserJobs scenarioNow "U1" (Date 2024 1 3 0 30 0 0 UTC) := by
    rw [scenario_zero_hour]
    simp
  exact ⟨rfl, hmem, generateUserJobs_before_today scenarioNow "U1"
    (Date 2024 1 3 0 30 0 0 UTC) rfl _ hmem⟩

/-- C6, at a frontier with hour zero.  On 2024-01-06, for the frontier 2024-01-03T00:30:00,
the first job of `generateUserJobs` runs from 00:30:00 to the next midnight: its start is not
a midnight, and it is 23 hours and 30 minutes wide, not one day. -/
theorem generateUserJobs_zero_hour_bucket :
    ∃ j ∈ generateUserJobs scenarioNow "U1" (Date 2024 1 3 0 30 0 0 UTC),
      isMidnight j.From = false ∧
        j.To.unixNano - j.From.unixNano = 23 * Hour + 30 * Minute ∧
        j.To.unixNano - j.From.unixNano ≠ Day := by
  refine ⟨⟨"U1", Date 2024 1 3 0 30 0 0 UTC, Date 2024 1 4 0 0 0 0 UTC⟩, ?_, by decide,
    by decide, by decide⟩
  rw [scenario_zero_hour]
  simp

/-- C7. On one current day: when `generateUserJobs` sends jobs for a frontier, it sends no job
for the frontier that is the end of the last of them, and when it sends no job for a frontier,
it sends none for it again.  Hence a pass whose reads succeed and whose frontiers are all
settled by an earlier pass of the same day sends no job. -/
theorem pass_idempotent (now now' : Time)
    (hday : startOfCurrentDay now' = startOfCurrentDay now) :
    (∀ userId frontier,
      (∀ j, (generateUserJobs now userId frontier).getLast? = some j →
          generateUserJobs now' userId j.To = []) ∧
        (generateUserJobs now userId frontier = [] →
          generateUserJobs now' userId frontier = [])) ∧
      (∀ (rangeOrder : TimeMap → TimeMap) (srv : AggregationService) (users : List User)
          (sums : List Summary) (hbs : List Heartbeat),
        (∀ m, (rangeOrder m).Perm m) →
        srv.GetAll = .ok users → srv.GetLatestByUser = .ok sums →
        srv.GetFirstUserHeartbeats (missingUserIDs users (userSummaryTimes sums)) = .ok hbs →
        (∀ e ∈ userSummaryTimes sums, settled now e.1 e.2) →
        (∀ h ∈ hbs, settled now h.UserID h.Time) →
        (trigger rangeOrder now' srv).pushed = []) := by
  constructor
  · intro userId frontier
    constructor
    · intro j hj
      exact generateUserJobs_settled now now' userId j.To hday (Or.inl ⟨frontier, j, hj, rfl⟩)
    · intro h
      exact generateUserJobs_settled now now' userId frontier hday (Or.inr h)
  · intro rangeOrder srv users sums hbs hperm h1 h2 h3 hs hh
    rw [trigger_ok rangeOrder now' srv users sums hbs h1 h2 h3]
    show (_ ++ _ : List AggregationJob) = []
    rw [List.append_eq_nil, List.flatMap_eq_nil_iff, List.flatMap_eq_nil_iff]
    constructor
    · intro e he
      exact generateUserJobs_settled now now' e.1 e.2 hday
        (hs e ((hperm _).mem_iff.1 he))
    · intro h hmem
      exact generateUserJobs_settled now now' h.UserID h.Time hday (hh h hmem)

theorem pass_idempotent_witness :
    startOfCurrentDay (Date 2024 1 6 12 0 1 0 UTC) = startOfCurrentDay scenarioNow ∧
      (generateUserJobs scenarioNow "U1" (Date 2024 1 3 14 0 0 0 UTC)).getLast? =
        some ⟨"U1", Date 2024 1 5 0 0 0 0 UTC, Date 2024 1 6 0 0 0 0 UTC⟩ ∧
      generateUserJobs (Date 2024 1 6 12 0 1 0 UTC) "U1" (Date 2024 1 6 0 0 0 0 UTC) = [] ∧
      (trigger id (Date 2024 1 6 12 0 1 0 UTC) scenarioServiceAfter).pushed = [] := by
  have hd : startOfCurrentDay (Date 2024 1 6 12 0 1 0 UTC) = startOfCurrentDay scenarioNow := by
    decide
  have h1 : (generateUserJobs scenarioNow "U1" (Date 2024 1 3 14 0 0 0 UTC)).getLast? =
      some ⟨"U1", Date 2024 1 5 0 0 0 0 UTC, Date 2024 1 6 0 0 0 0 UTC⟩ := by
    rw [scenario_U1]
    rfl
  have h2 : (generateUserJobs scenarioNow "U2" (Date 2024 1 5 0 0 0 0 UTC)).getLast? =
      some ⟨"U2", Date 2024 1 5 0 0 0 0 UTC, Date 2024 1 6 0 0 0 0 UTC⟩ := by
    rw [scenario_U2]
    rfl
  have hsettled : ∀ e ∈ userSummaryTimes
      [⟨"U1", Date 2024 1 6 0 0 0 0 UTC⟩, ⟨"U2", Date 2024 1 6 0 0 0 0 UTC⟩],
      settled scenarioNow e.1 e.2 := by
    intro e he
    have hm : userSummaryTimes
        [⟨"U1", Date 2024 1 6 0 0 0 0 UTC⟩, ⟨"U2", Date 2024 1 6 0 0 0 0 UTC⟩]
        = [("U2", Date 2024 1 6 0 0 0 0 UTC), ("U1", Date 2024 1 6 0 0 0 0 UTC)] := by
      decide
    rw [hm] at he
    simp only [List.mem_cons, List.mem_singleton, List.not_mem_nil, or_false] at he
    rcases he with rfl | rfl
    · exact Or.inl ⟨_, _, h2, rfl⟩
    · exact Or.inl ⟨_, _, h1, rfl⟩
  have h := pass_idempotent scenarioNow (Date 2024 1 6 12 0 1 0 UTC) hd
  exact ⟨hd, h1, (h.1 "U1" (Date 2024 1 3 14 0 0 0 UTC)).1 _ h1,
    h.2 id scenarioServiceAfter _ _ [] (fun m => List.Perm.refl m) rfl rfl rfl hsettled
      (fun _ hmem => absurd hmem (List.not_mem_nil _))⟩

/-- C8. When one of the three reads of a pass fails, `trigger` returns that failure and sends
no job at all. -/
theorem trigger_read_failure (rangeOrder : TimeMap → TimeMap) (now : Time)
    (srv : AggregationService) (err : Error)
    (h : srv.GetAll = .error err ∨
      ∃ users, srv.GetAll = .ok users ∧
        (srv.GetLatestByUser = .error err ∨
          ∃ sums, srv.GetLatestByUser = .ok sums ∧
            srv.GetFirstUserHeartbeats (missingUserIDs users (userSummaryTimes sums))
              = .error err)) :
    (trigger rangeOrder now srv).err = some err ∧ (trigger rangeOrder now srv).pushed = [] := by
  rcases h with h | ⟨users, h1, h | ⟨sums, h2, h3⟩⟩
  · simp only [trigger, h, and_self]
  · simp only [trigger, h1, h, and_self]
  · simp only [trigger, h1, h2, h3, and_self]

theorem trigger_read_failure_witness :
    (trigger id scenarioNow
        ⟨.ok [⟨"U1"⟩, ⟨"U2"⟩], .ok [⟨"U2", Date 2024 1 3 0 0 0 0 UTC⟩],
          fun _ => .error "no heartbeats"⟩).err = some "no heartbeats" ∧
      (trigger id scenarioNow
        ⟨.ok [⟨"U1"⟩, ⟨"U2"⟩], .ok [⟨"U2", Date 2024 1 3 0 0 0 0 UTC⟩],
          fun _ => .error "no heartbeats"⟩).pushed = [] :=
  trigger_read_failure id scenarioNow
    ⟨.ok [⟨"U1"⟩, ⟨"U2"⟩], .ok [⟨"U2", Date 2024 1 3 0 0 0 0 UTC⟩],
      fun _ => .error "no heartbeats"⟩ "no heartbeats"
    (Or.inr ⟨_, rfl, Or.inr ⟨_, rfl, rfl⟩⟩)

/-- C9. When the three reads of a pass succeed, `trigger` returns no error, asks the heartbeat
store for exactly the directory users without an entry in the latest-summary mapping, and
sends, up to order, the jobs of `generateUserJobs` for every entry of that mapping and for every
first heartbeat returned.  The mapping holds the end time of each user's summary, and a user
is without entry exactly when no summary is theirs.  A user with neither a summary nor a first
heartbeat gets no job. -/
theorem trigger_success (rangeOrder : TimeMap → TimeMap) (now : Time)
    (srv : AggregationService) (users : List User) (sums : List Summary) (hbs : List Heartbeat)
    (hperm : ∀ m, (rangeOrder m).Perm m)
    (h1 : srv.GetAll = .ok users) (h2 : srv.GetLatestByUser = .ok sums)
    (h3 : srv.GetFirstUserHeartbeats (missingUserIDs users (userSummaryTimes sums)) = .ok hbs) :
    (trigger rangeOrder now srv).err = none ∧
      (trigger rangeOrder now srv).asked =
        some ((users.map fun u => u.ID).filter
          fun id => ((userSummaryTimes sums).get? id).isNone) ∧
      (trigger rangeOrder now srv).pushed.Perm
        ((userSummaryTimes sums).flatMap (fun e => generateUserJobs now e.1 e.2)
          ++ hbs.flatMap (fun h => generateUserJobs now h.UserID h.Time)) ∧
      (∀ id t, (id, t) ∈ userSummaryTimes sums ↔ latestEnd sums id = some t) ∧
      (∀ id, (userSummaryTimes sums).get? id = none ↔ ∀ s ∈ sums, s.UserID ≠ id) ∧
      (∀ id, (∀ s ∈ sums, s.UserID ≠ id) → (∀ h ∈ hbs, h.UserID ≠ id) →
        ∀ j ∈ (trigger rangeOrder now srv).pushed, j.UserID ≠ id) := by
  rw [trigger_ok rangeOrder now srv users sums hbs h1 h2 h3]
  refine ⟨rfl, ?_, ?_, (userSummaryTimes_spec sums).2, userSummaryTimes_get?_eq_none sums, ?_⟩
  · simp only [missingUserIDs_eq]
  · exact List.Perm.append_right _ (List.Perm.flatMap_right _ (hperm _))
  · intro id hs hh j hj
    simp only [List.mem_append, List.mem_flatMap] at hj
    rcases hj with ⟨e, he, hj⟩ | ⟨b, hb, hj⟩
    · rw [generateUserJobs_UserID now e.1 e.2 j hj]
      have he' : e ∈ userSummaryTimes sums := (hperm _).mem_iff.1 he
      exact (TimeMap.get?_eq_none _ _).1 ((userSummaryTimes_get?_eq_none sums id).2 hs) e he'
    · rw [generateUserJobs_UserID now b.UserID b.Time j hj]
      exact hh b hb

theorem trigger_success_witness :
    (trigger id scenarioNow scenarioService).err = none ∧
      (trigger id scenarioNow scenarioService).asked = some ["U1", "U3"] ∧
      (∀ j ∈ (trigger id scenarioNow scenarioService).pushed, j.UserID ≠ "U3") := by
  have h := trigger_success id scenarioNow scenarioService [⟨"U1"⟩, ⟨"U2"⟩, ⟨"U3"⟩]
    [⟨"U2", Date 2024 1 5 0 0 0 0 UTC⟩] [⟨"U1", Date 2024 1 3 14 0 0 0 UTC⟩]
    (fun m => List.Perm.refl m) rfl rfl scenario_reads
  exact ⟨h.1, h.2.1.trans (by decide), h.2.2.2.2.2 "U3" (by decide) (by decide)⟩

/-- C10. When the three reads of a pass succeed and the heartbeat store returns at most one
entry per user and only for the user IDs it was asked about, no job is sent twice in the pass:
the jobs of one user start later and later, and no user of a returned first heartbeat has an
entry in the latest-summary mapping. -/
theorem trigger_pushed_nodup (rangeOrder : TimeMap → TimeMap) (now : Time)
    (srv : AggregationService) (users : List User) (sums : List Summary) (hbs : List Heartbeat)
    (hperm : ∀ m, (rangeOrder m).Perm m)
    (h1 : srv.GetAll = .ok users) (h2 : srv.GetLatestByUser = .ok sums)
    (h3 : srv.GetFirstUserHeartbeats (missingUserIDs users (userSummaryTimes sums)) = .ok hbs)
    (hone : (hbs.map fun h => h.UserID).Nodup)
    (hasked : ∀ h ∈ hbs, h.UserID ∈ missingUserIDs users (userSummaryTimes sums)) :
    (trigger rangeOrder now srv).pushed.Nodup ∧
      (∀ userId frontier,
        (generateUserJobs now userId frontier).Pairwise
          fun a b => a.From.Before b.From = true) ∧
      (∀ h ∈ hbs, (userSummaryTimes sums).get? h.UserID = none) := by
  have hnone : ∀ h ∈ hbs, (userSummaryTimes sums).get? h.UserID = none := by
    intro h hh
    have := hasked h hh
    rw [missingUserIDs_eq, List.mem_filter] at this
    exact Option.isNone_iff_eq_none.1 this.2
  refine ⟨?_, generateUserJobs_increasing now, hnone⟩
  rw [trigger_ok rangeOrder now srv users sums hbs h1 h2 h3]
  -- all frontiers of the pass, as one list of entries
  have hentries : (rangeOrder (userSummaryTimes sums)).flatMap
        (fun e => generateUserJobs now e.1 e.2)
        ++ hbs.flatMap (fun h => generateUserJobs now h.UserID h.Time)
      = (rangeOrder (userSummaryTimes sums) ++ hbs.map fun h => (h.UserID, h.Time)).flatMap
        (fun e => generateUserJobs now e.1 e.2) := by
    rw [List.flatMap_append, List.flatMap_map]
  show (_ ++ _ : List AggregationJob).Nodup
  rw [hentries, List.nodup_flatMap]
  constructor
  · intro e _
    have hp := generateUserJobs_increasing now e.1 e.2
    refine List.Pairwise.imp ?_ hp
    intro a b hab heq
    rw [heq] at hab
    simp [Time.Before] at hab
  · have hkeys : ((rangeOrder (userSummaryTimes sums)
        ++ hbs.map fun h => (h.UserID, h.Time)).map Prod.fst).Nodup := by
      rw [List.map_append, List.map_map]
      refine List.Nodup.append ?_ hone ?_
      · exact (((hperm _).map Prod.fst).nodup_iff).2 (userSummaryTimes_spec sums).1
      · intro k hk1 hk2
        obtain ⟨e, he, rfl⟩ := List.mem_map.1 hk1
        obtain ⟨h, hh, hk⟩ := List.mem_map.1 hk2
        have he' : e ∈ userSummaryTimes sums := (hperm _).mem_iff.1 he
        exact (TimeMap.get?_eq_none _ _).1 (hnone h hh) e he' hk.symm
    have hpw := List.pairwise_map.1 hkeys
    refine List.Pairwise.imp ?_ hpw
    intro a b hab j hja hjb
    exact hab ((generateUserJobs_UserID now a.1 a.2 j hja).symm.trans
      (generateUserJobs_UserID now b.1 b.2 j hjb))

theorem trigger_pushed_nodup_witness :
    (trigger id scenarioNow scenarioService).pushed =
        [⟨"U2", Date 2024 1 5 0 0 0 0 UTC, Date 2024 1 6 0 0 0 0 UTC⟩,
         ⟨"U1", Date 2024 1 4 0 0 0 0 UTC, Date 2024 1 5 0 0 0 0 UTC⟩,
         ⟨"U1", Date 2024 1 5 0 0 0 0 UTC, Date 2024 1 6 0 0 0 0 UTC⟩] ∧
      (trigger id scenarioNow scenarioService).pushed.Nodup :=
  ⟨scenario_pushed,
    (trigger_pushed_nodup id scenarioNow scenarioService [⟨"U1"⟩, ⟨"U2"⟩, ⟨"U3"⟩]
      [⟨"U2", Date 2024 1 5 0 0 0 0 UTC⟩] [⟨"U1", Date 2024 1 3 14 0 0 0 UTC⟩]
      (fun m => List.Perm.refl m) rfl rfl scenario_reads (by decide) (by decide)).1⟩

end Wakapi
